import Mathlib

/-!
# Verification of the mtool target-size media compression engine

Shallow embedding of `src/mtool/image/compress.py` and
`src/mtool/video/compress.py` (the convergence loops of the four CLI
commands `image compress by-percent`, `image compress to-size`,
`video compress by-percent`, `video compress to-size`).

Modelling conventions, stated once:

* Byte sizes, quality values, bitrates and iteration counters are `ℕ`.
* The Python code computes the target size and the bitrate schedule with
  floats (`original_size * (1 - reduction / 100)`, `current_bitrate * 0.8`,
  `current_bitrate * 0.75`, `current_bitrate * (target_size / original_size)`,
  `(original_size * 8) / duration`).  All of these values are exact decimal
  ratios, so the embedding carries them as exact nonnegative ratios
  (`NatFrac`, a numerator/denominator pair) and models Python `int()` on a
  nonnegative value as floor, i.e. `ℕ` division; `0.8 = 4/5` and
  `0.75 = 3/4` exactly.  Double rounding error (at most one ulp on these
  products) is outside the model.
* The external encoders (PIL `img.save` measured by `os.path.getsize`,
  and `ffmpeg` measured by `get_video_size`) are oracles: functions from
  (iteration index, quality or bitrate) to the produced candidate size,
  plus, for video, a success flag for the `ffmpeg` exit status.  The image
  dimensions are not part of the oracle state because the only statement
  that changes them (the PNG below-floor resize) is followed in the same
  iteration by a size probe of a path no iteration ever wrote, which
  raises before the new dimensions can influence anything observable.
* The single temporary candidate of a request lives at one of two paths:
  `f"{file}.temp"` (`TPath.plain`) or the same string with the source
  extension replaced by `.jpg` (`TPath.asJpg`, produced by the
  `temp_path.replace(...)` calls).  The filesystem relevant to one request
  is therefore `Option (TPath × Fmt × Bool × ℕ)`: at most one temp file,
  with the path it occupies, the container format PIL encoded, whether the
  image was first converted to RGB, and its byte size.  The destination
  path is `output or file`; `outIsSource : Bool` records whether `--output`
  was omitted (so the destination is the source file itself, keeping its
  original name and extension).  `committed` is what the destination path
  holds after the command returns (`none` = destination untouched).
* Every error the command bodies can raise (`FileNotFoundError` from
  `os.path.getsize`, `NameError` on an unbound `temp_path`/`temp_output`,
  `ZeroDivisionError`) is caught by the surrounding
  `except Exception: click.echo(..., err=True)`, after which the callback
  returns normally; click maps a normal return to process exit status 0.
  The embedding records such a caught exception as outcome `errored` and
  gives every result the exit status the process actually reports.
-/

namespace MTool

/-- An exact nonnegative ratio `num / den`, standing for the nonnegative
real values the Python code manipulates as floats.  `den` is positive at
every use site. -/
structure NatFrac where
  num : ℕ
  den : ℕ
deriving DecidableEq, Repr

/-- `n > t` for a byte count `n` and a ratio target `t` (the loop guard
`current_size > target_size`), by cross multiplication. -/
abbrev sizeGT (n : ℕ) (t : NatFrac) : Prop := t.num < n * t.den

/-- `n ≤ t` (the acceptance test `current_size <= target_size`). -/
abbrev sizeLE (n : ℕ) (t : NatFrac) : Prop := n * t.den ≤ t.num

/-! ## Image compression (`src/mtool/image/compress.py`) -/

/-- The source file extension class the `if/elif` chain dispatches on:
`.jpg`/`.jpeg`, `.png`, `.webp`, or anything else. -/
inductive ImgExt | jpeg | png | webp | other
deriving DecidableEq, Repr

/-- The two temp-path shapes: `f"{file}.temp"` (`plain`), or that string
with the source extension replaced by `.jpg` (`asJpg`). -/
inductive TPath | plain | asJpg
deriving DecidableEq, Repr

/-- The container format PIL is asked to encode. -/
inductive Fmt | jpegF | webpF
deriving DecidableEq, Repr

/-- Loop state of one image compression request.  `temp` is the temp file
currently on storage (path, encoded format, RGB-converted flag, size);
`lastTempVar` is the value of the Python variable `temp_path` (unbound
before the first loop body, which matters for the post-loop
`os.path.exists(temp_path)`); `qualsUsed` logs the quality passed to each
`img.save` that was executed, in order. -/
structure ImgState where
  quality : ℕ
  currentSize : ℕ
  iterations : ℕ
  temp : Option (TPath × Fmt × Bool × ℕ)
  lastTempVar : Option TPath
  qualsUsed : List ℕ
deriving DecidableEq, Repr

/-- `os.path.getsize` on temp path `tp` against the one-slot temp
filesystem: the stored entry if the path matches, otherwise `none`
(the call raises `FileNotFoundError`). -/
def tmpLookup (fs : Option (TPath × Fmt × Bool × ℕ)) (tp : TPath) :
    Option (Fmt × Bool × ℕ) :=
  match fs with
  | some (p, f, rgb, sz) => if p = tp then some (f, rgb, sz) else none
  | none => none

/-- Result of one execution of the `while` body: the candidate was
rejected and the loop continues; the candidate met the target and was
renamed to the destination (`break`); or an exception was raised
(caught by the outer handler). -/
inductive ImgStep
  | continue (s : ImgState)
  | committed (f : Fmt) (rgb : Bool) (sz : ℕ) (s : ImgState)
  | raise (s : ImgState)
deriving DecidableEq, Repr

/-- `img.save(temp_path, ...)`: writes the temp file (replacing any
previous one), records the quality used, and binds `temp_path`. -/
def imgWrite (s : ImgState) (tp : TPath) (f : Fmt) (rgb : Bool) (sz : ℕ) :
    ImgState :=
  { s with
    temp := some (tp, f, rgb, sz), lastTempVar := some tp,
    qualsUsed := s.qualsUsed ++ [s.quality] }

/-- The common tail of the loop body, from
`current_size = os.path.getsize(temp_path)` on: measure the candidate,
accept it (`os.rename(temp_path, out_path); break`) or reject it
(`os.remove(temp_path)`; `quality = max(5, quality - step)`;
`iterations += 1`). -/
def imgMeasure (qStep : ℕ) (target : NatFrac) (s : ImgState) (tp : TPath) :
    ImgStep :=
  match tmpLookup s.temp tp with
  | none => .raise s
  | some (f, rgb, sz) =>
    if sizeLE sz target then
      .committed f rgb sz { s with currentSize := sz, temp := none }
    else
      .continue { s with
        currentSize := sz, temp := none,
        quality := max 5 (s.quality - qStep),
        iterations := s.iterations + 1 }

/-- One execution of the `while` body of `compress_by_percent` /
`compress_to_size` (they differ only in `qStep` and `pngFloor`).
`enc it q` is the size `os.path.getsize` reports for the candidate
`img.save` produces at iteration `it` with quality `q`.

The `.png` below-floor branch is the resize fallback: it computes
`scale_factor = sqrt(target_size / current_size)`, resizes `img`, and
resets `quality = 95`, but executes no `img.save`; the subsequent
`os.path.getsize(f"{file}.temp")` then probes a path that no iteration of
a `.png` request ever writes (the `.png` saves go to the `asJpg` path). -/
def imgBody (ext : ImgExt) (enc : ℕ → ℕ → ℕ) (pngFloor qStep : ℕ)
    (target : NatFrac) (s : ImgState) : ImgStep :=
  match ext with
  | .jpeg =>
    imgMeasure qStep target
      (imgWrite s .plain .jpegF false (enc s.iterations s.quality)) .plain
  | .png =>
    if s.quality < pngFloor then
      imgMeasure qStep target
        { s with quality := 95, lastTempVar := some .plain } .plain
    else
      imgMeasure qStep target
        (imgWrite s .asJpg .jpegF true (enc s.iterations s.quality)) .asJpg
  | .webp =>
    imgMeasure qStep target
      (imgWrite s .plain .webpF false (enc s.iterations s.quality)) .plain
  | .other =>
    imgMeasure qStep target
      (imgWrite s .asJpg .jpegF true (enc s.iterations s.quality)) .asJpg

/-- How the `while` loop ended: `break` after a successful rename, an
exception, or the guard turning false. -/
inductive ImgLoopExit
  | brokeSuccess (f : Fmt) (rgb : Bool) (sz : ℕ) (s : ImgState)
  | raised (s : ImgState)
  | exhausted (s : ImgState)
deriving DecidableEq, Repr

/-- The loop state an exit carries. -/
def ImgLoopExit.state : ImgLoopExit → ImgState
  | .brokeSuccess _ _ _ s => s
  | .raised s => s
  | .exhausted s => s

/-- The `while current_size > target_size and iterations < max_iterations`
loop.  The fuel argument is always instantiated with `maxIter`; since
`iterations` starts at 0 and each continuing body increments it by
exactly 1, fuel runs out exactly when `iterations = maxIter`, where the
guard is false anyway. -/
def imgLoop (ext : ImgExt) (enc : ℕ → ℕ → ℕ) (pngFloor qStep : ℕ)
    (target : NatFrac) (maxIter : ℕ) : ℕ → ImgState → ImgLoopExit
  | 0, s => .exhausted s
  | fuel + 1, s =>
    if sizeGT s.currentSize target ∧ s.iterations < maxIter then
      match imgBody ext enc pngFloor qStep target s with
      | .continue s' => imgLoop ext enc pngFloor qStep target maxIter fuel s'
      | .committed f rgb sz s' => .brokeSuccess f rgb sz s'
      | .raise s' => .raised s'
    else .exhausted s

/-- Observable outcome of one image command invocation. -/
inductive ImgOutcome
  | success   -- candidate met the target and sits at the destination
  | capWarn   -- shortfall warning printed, command completed
  | noop      -- to-size: source already at or under the target
  | doneQuiet -- completed with neither success nor warning (dead in
              -- reachable runs; kept for the unreachable fall-through)
  | errored   -- an exception was caught and reported
deriving DecidableEq, Repr

/-- What one image command invocation did, as observable on return:
outcome, whether the shortfall warning was printed, the temp file still on
storage, the data now at the destination path, the qualities used by the
executed saves, and the process exit status. -/
structure ImgResult where
  outcome : ImgOutcome
  warned : Bool
  temp : Option (TPath × Fmt × Bool × ℕ)
  committed : Option (Fmt × Bool × ℕ)
  qualsUsed : List ℕ
  exit : ℕ
deriving DecidableEq, Repr

/-- The code after the loop, second half:
`final_size = os.path.getsize(output or file)` raises when the destination
holds nothing and a separate `--output` path was given; for by-percent,
`actual_reduction = ((original_size - final_size) / original_size) * 100`
raises `ZeroDivisionError` when `original_size = 0`. -/
def imgFinalStats (byPercent : Bool) (originalSize : ℕ) (outIsSource : Bool)
    (warned : Bool) (temp : Option (TPath × Fmt × Bool × ℕ))
    (committed : Option (Fmt × Bool × ℕ)) (quals : List ℕ) : ImgResult :=
  match committed with
  | some c =>
    if byPercent ∧ originalSize = 0 then ⟨.errored, warned, temp, some c, quals, 0⟩
    else ⟨if warned then .capWarn else .success, warned, temp, some c, quals, 0⟩
  | none =>
    if outIsSource then
      if byPercent ∧ originalSize = 0 then ⟨.errored, warned, temp, none, quals, 0⟩
      else ⟨if warned then .capWarn else .doneQuiet, warned, temp, none, quals, 0⟩
    else ⟨.errored, warned, temp, none, quals, 0⟩

/-- The code after the loop, first half: `if current_size > target_size:`
print the warning, then `if os.path.exists(temp_path): os.rename(...)` —
which raises `NameError` when the loop never ran and `temp_path` is
unbound, and renames the temp file to the destination when one exists at
`temp_path`.  `committed` is what the destination already holds (set by an
in-loop `break` rename). -/
def imgPost (byPercent : Bool) (originalSize : ℕ) (target : NatFrac)
    (outIsSource : Bool) (s : ImgState) (committed : Option (Fmt × Bool × ℕ)) :
    ImgResult :=
  if sizeGT s.currentSize target then
    match s.lastTempVar with
    | none => ⟨.errored, true, s.temp, committed, s.qualsUsed, 0⟩
    | some tp =>
      match tmpLookup s.temp tp with
      | some c =>
        imgFinalStats byPercent originalSize outIsSource true none (some c)
          s.qualsUsed
      | none =>
        imgFinalStats byPercent originalSize outIsSource true s.temp committed
          s.qualsUsed
  else
    imgFinalStats byPercent originalSize outIsSource false s.temp committed
      s.qualsUsed

/-- Everything after the `while` loop, for each way the loop ended. -/
def imgFinish (byPercent : Bool) (originalSize : ℕ) (target : NatFrac)
    (outIsSource : Bool) (e : ImgLoopExit) : ImgResult :=
  match e with
  | .raised s => ⟨.errored, false, s.temp, none, s.qualsUsed, 0⟩
  | .brokeSuccess f rgb sz s =>
    imgPost byPercent originalSize target outIsSource s (some (f, rgb, sz))
  | .exhausted s => imgPost byPercent originalSize target outIsSource s none

/-- `mtool image compress by-percent` (`compress_by_percent` in
`src/mtool/image/compress.py`): quality starts at 95, step 10, PNG quality
floor 50, `target_size = original_size * (1 - reduction / 100)`, i.e.
exactly `original_size * (100 - reduction) / 100`.  The CLI validates
`reduction ∈ [1, 99]` and `max_iterations` defaults to 10. -/
def imageByPercent (ext : ImgExt) (enc : ℕ → ℕ → ℕ)
    (original_size reduction : ℕ) (outIsSource : Bool)
    (max_iterations : ℕ) : ImgResult :=
  let target : NatFrac := ⟨original_size * (100 - reduction), 100⟩
  imgFinish true original_size target outIsSource
    (imgLoop ext enc 50 10 target max_iterations max_iterations
      ⟨95, original_size, 0, none, none, []⟩)

/-- `mtool image compress to-size` (`compress_to_size`): target is
`target_size_kb * 1024` bytes; an `original_size <= target_size` source
returns immediately with the informational message; quality step 8, PNG
quality floor 30.  `max_iterations` defaults to 15. -/
def imageToSize (ext : ImgExt) (enc : ℕ → ℕ → ℕ)
    (original_size target_size_kb : ℕ) (outIsSource : Bool)
    (max_iterations : ℕ) : ImgResult :=
  let target_size := target_size_kb * 1024
  if original_size ≤ target_size then ⟨.noop, false, none, none, [], 0⟩
  else
    imgFinish false original_size ⟨target_size, 1⟩ outIsSource
      (imgLoop ext enc 30 8 ⟨target_size, 1⟩ max_iterations max_iterations
        ⟨95, original_size, 0, none, none, []⟩)

/-! ## Video compression (`src/mtool/video/compress.py`) -/

/-- What `get_video_info` (the `ffprobe` JSON) contributes when it
succeeds: whether some stream has `codec_type == "video"`, and the
`format` dictionary entries `bit_rate` (an integer string, parsed by
`int`) and `duration` (a decimal string, parsed by `float`, carried here
as an exact ratio), each `none` when the key is absent so that the
`.get(key, default)` defaults in the code stay visible. -/
structure VidProbe where
  hasVideoStream : Bool
  bit_rate : Option ℕ
  duration : Option NatFrac
deriving DecidableEq, Repr

/-- One `ffmpeg` invocation as logged by the loop: the `current_bitrate`
at loop entry, the `target_bitrate` passed on the command line, whether
the process exited with status 0, the measured size of the produced
candidate (meaningful only when `ok`), and, when the candidate was
rejected, the decayed `current_bitrate` computed for the next iteration
(`none` when the attempt succeeded or the encoder failed). -/
structure VAtt where
  entry : ℕ
  target : ℕ
  ok : Bool
  size : ℕ
  next : Option ℕ
deriving DecidableEq, Repr

/-- Loop state of one video compression request.  `temp` records whether
the temp file `f"{file}.temp{ext}"` currently exists (a failed `ffmpeg`
invocation is modelled as producing no candidate); `tempAssigned` is
whether the Python variable `temp_output` is bound (it is assigned inside
the loop body, so it is unbound when the loop never ran, and the
post-loop `os.path.exists(temp_output)` then raises `NameError`). -/
structure VidState where
  bitrate : ℕ
  iterations : ℕ
  temp : Bool
  tempSize : ℕ
  tempAssigned : Bool
  attempts : List VAtt
deriving DecidableEq, Repr

/-- Result of one execution of the video `while` body. -/
inductive VidStep
  | continue (s : VidState)
  | committed (sz : ℕ) (s : VidState)
  | encodeFail (s : VidState)
deriving DecidableEq, Repr

/-- One execution of the `while iterations < max_iterations` body of
`compress_by_percent` / `compress_to_size` (they differ only in the decay
ratio, `0.8 = 4/5` versus `0.75 = 3/4`, carried as `decayN / decayD`).
`target_bitrate = int(current_bitrate * (target_size / original_size))`;
an `ffmpeg` exit status of 0 (`encOk`) yields a candidate whose size
`get_video_size` reports as `encSize`; a candidate at or under target is
renamed to the destination and the loop breaks; an oversize candidate
decays `current_bitrate`, increments `iterations`, and is removed; a
non-zero exit status prints the error and breaks. -/
def vidBody (encOk : ℕ → ℕ → Bool) (encSize : ℕ → ℕ → ℕ)
    (target : NatFrac) (originalSize decayN decayD : ℕ) (s : VidState) :
    VidStep :=
  let tb := s.bitrate * target.num / (target.den * originalSize)
  if encOk s.iterations tb then
    let sz := encSize s.iterations tb
    if sizeLE sz target then
      .committed sz { s with
        temp := false, tempSize := sz, tempAssigned := true,
        attempts := s.attempts ++ [⟨s.bitrate, tb, true, sz, none⟩] }
    else
      .continue { s with
        bitrate := s.bitrate * decayN / decayD,
        iterations := s.iterations + 1,
        temp := false, tempSize := sz, tempAssigned := true,
        attempts := s.attempts ++
          [⟨s.bitrate, tb, true, sz, some (s.bitrate * decayN / decayD)⟩] }
  else
    .encodeFail { s with
      temp := false, tempAssigned := true,
      attempts := s.attempts ++ [⟨s.bitrate, tb, false, 0, none⟩] }

/-- How the video `while` loop ended. -/
inductive VidLoopExit
  | success (sz : ℕ) (s : VidState)
  | encodeFail (s : VidState)
  | exhausted (s : VidState)
deriving DecidableEq, Repr

/-- The loop state an exit carries. -/
def VidLoopExit.state : VidLoopExit → VidState
  | .success _ s => s
  | .encodeFail s => s
  | .exhausted s => s

/-- The `while iterations < max_iterations` loop; the fuel argument is
always instantiated with `maxIter`, which suffices since `iterations`
starts at 0 and each continuing body increments it by exactly 1. -/
def vidLoop (encOk : ℕ → ℕ → Bool) (encSize : ℕ → ℕ → ℕ)
    (target : NatFrac) (originalSize decayN decayD maxIter : ℕ) :
    ℕ → VidState → VidLoopExit
  | 0, s => .exhausted s
  | fuel + 1, s =>
    if s.iterations < maxIter then
      match vidBody encOk encSize target originalSize decayN decayD s with
      | .continue s' =>
        vidLoop encOk encSize target originalSize decayN decayD maxIter fuel s'
      | .committed sz s' => .success sz s'
      | .encodeFail s' => .encodeFail s'
    else .exhausted s

/-- Observable outcome of one video command invocation. -/
inductive VidOutcome
  | srcUnreadable            -- `get_video_size(file) == 0`
  | probeFailed              -- `get_video_info` returned `None`
  | noStream                 -- no stream with `codec_type == "video"`
  | noop                     -- to-size: source already at or under target
  | success
  | encodeFailed             -- non-zero `ffmpeg` exit status
  | capWarn (renamed : Bool) -- warning printed; whether the post-loop
                             -- `os.path.exists`/`os.rename` committed a file
  | errored                  -- an exception was caught and reported
deriving DecidableEq, Repr

/-- What one video command invocation did, as observable on return. -/
structure VidResult where
  outcome : VidOutcome
  temp : Bool
  committed : Option ℕ
  attempts : List VAtt
  bitrate : ℕ
  exit : ℕ
deriving DecidableEq, Repr

/-- The code after the video loop:
`if iterations >= max_iterations:` print the warning, then
`if os.path.exists(temp_output): os.rename(...)` — `NameError` when the
loop never ran, a rename when a temp file still exists.  The trailing
`final_size = get_video_size(output or file)` never raises (that probe
returns 0 on failure) and the by-percent reduction division is safe since
`original_size > 0` was checked at entry, so no further outcome change
occurs.  `committed` is what the destination already holds (set by an
in-loop `break` rename); `base` is the outcome of the way the loop
ended. -/
def vidAfterCap (maxIter : ℕ) (s : VidState) (committed : Option ℕ)
    (base : VidOutcome) : VidResult :=
  if maxIter ≤ s.iterations then
    if s.tempAssigned then
      if s.temp then ⟨.capWarn true, false, some s.tempSize, s.attempts, s.bitrate, 0⟩
      else ⟨.capWarn false, false, committed, s.attempts, s.bitrate, 0⟩
    else ⟨.errored, s.temp, committed, s.attempts, s.bitrate, 0⟩
  else ⟨base, s.temp, committed, s.attempts, s.bitrate, 0⟩

/-- Everything after the video `while` loop, for each way it ended.
A `break` (success or encode failure) always leaves
`iterations < max_iterations`, so the warning block is skipped there at
runtime; the check is still performed on the state. -/
def vidFinish (maxIter : ℕ) (e : VidLoopExit) : VidResult :=
  match e with
  | .success sz s => vidAfterCap maxIter s (some sz) .success
  | .encodeFail s => vidAfterCap maxIter s none .encodeFailed
  | .exhausted s => vidAfterCap maxIter s none (.capWarn false)

/-- `original_bitrate = int(video_info.get('format', {}).get('bit_rate', 0))`,
and, when that is 0, the estimate
`int((original_size * 8) / float(... .get('duration', 1)))`; a duration
of 0 makes the division raise `ZeroDivisionError` (returned as `none`
here, mapped to the caught-exception outcome by the caller). -/
def initial_bitrate (p : VidProbe) (original_size : ℕ) : Option ℕ :=
  let ob := p.bit_rate.getD 0
  if ob = 0 then
    let d := p.duration.getD ⟨1, 1⟩
    if d.num = 0 then none
    else some (original_size * 8 * d.den / d.num)
  else some ob

/-- `mtool video compress by-percent` (`compress_by_percent` in
`src/mtool/video/compress.py`): a measured size of 0 is reported as
unreadable; `target_size = original_size * (1 - reduction / 100)`; a
`None` probe or a probe without a video stream aborts with an error;
bitrate decay ratio 0.8 = 4/5.  `max_iterations` defaults to 8. -/
def videoByPercent (probe : Option VidProbe) (encOk : ℕ → ℕ → Bool)
    (encSize : ℕ → ℕ → ℕ) (original_size reduction : ℕ)
    (max_iterations : ℕ) : VidResult :=
  if original_size = 0 then ⟨.srcUnreadable, false, none, [], 0, 0⟩
  else
    let target : NatFrac := ⟨original_size * (100 - reduction), 100⟩
    match probe with
    | none => ⟨.probeFailed, false, none, [], 0, 0⟩
    | some p =>
      if p.hasVideoStream then
        match initial_bitrate p original_size with
        | none => ⟨.errored, false, none, [], 0, 0⟩
        | some b0 =>
          vidFinish max_iterations
            (vidLoop encOk encSize target original_size 4 5 max_iterations
              max_iterations ⟨b0, 0, false, 0, false, []⟩)
      else ⟨.noStream, false, none, [], 0, 0⟩

/-- `mtool video compress to-size` (`compress_to_size`): target is
`target_size_mb * 1024 * 1024` bytes; the unreadable check precedes the
`original_size <= target_size` no-op check; bitrate decay ratio
0.75 = 3/4.  `max_iterations` defaults to 10. -/
def videoToSize (probe : Option VidProbe) (encOk : ℕ → ℕ → Bool)
    (encSize : ℕ → ℕ → ℕ) (original_size target_size_mb : ℕ)
    (max_iterations : ℕ) : VidResult :=
  if original_size = 0 then ⟨.srcUnreadable, false, none, [], 0, 0⟩
  else
    let target_size := target_size_mb * 1024 * 1024
    if original_size ≤ target_size then ⟨.noop, false, none, [], 0, 0⟩
    else
      match probe with
      | none => ⟨.probeFailed, false, none, [], 0, 0⟩
      | some p =>
        if p.hasVideoStream then
          match initial_bitrate p original_size with
          | none => ⟨.errored, false, none, [], 0, 0⟩
          | some b0 =>
            vidFinish max_iterations
              (vidLoop encOk encSize ⟨target_size, 1⟩ original_size 3 4
                max_iterations max_iterations ⟨b0, 0, false, 0, false, []⟩)
        else ⟨.noStream, false, none, [], 0, 0⟩

/-! ## Invariant predicates used by the theorems -/

/-- The data an image loop exit leaves at the destination path: the
candidate renamed there by an in-loop `break`, nothing otherwise. -/
def ImgLoopExit.commitOf : ImgLoopExit → Option (Fmt × Bool × ℕ)
  | .brokeSuccess f rgb sz _ => some (f, rgb, sz)
  | .raised _ => none
  | .exhausted _ => none

/-- Facts about the logged quality sequence of an image run: every
executed save used a quality of at least 5; consecutive saves are related
by `quality = max(5, previous - qStep)`; the first save used quality
95. -/
def QObs (qStep : ℕ) (l : List ℕ) : Prop :=
  (∀ q ∈ l, 5 ≤ q) ∧
  List.Chain' (fun a b => b = max 5 (a - qStep)) l ∧
  (l.head? = none ∨ l.head? = some 95)

/-- Loop invariant for the image quality schedule: the log so far
satisfies `QObs`, and the pending `quality` is 95 before the first save
and `max(5, last - qStep)` after a save. -/
def QInv (qStep : ℕ) (s : ImgState) : Prop :=
  QObs qStep s.qualsUsed ∧
  (s.qualsUsed = [] ∧ s.quality = 95 ∨
   ∃ x, s.qualsUsed.getLast? = some x ∧ s.quality = max 5 (x - qStep))

/-- Facts about the logged `ffmpeg` attempts of a video run: every
attempt was invoked with
`target_bitrate = int(entry * (target_size / original_size))`; every
recorded decay is `int(entry * decay)`; and each recorded decay is the
entry bitrate of the following attempt. -/
def AObs (target : NatFrac) (originalSize decayN decayD : ℕ)
    (l : List VAtt) : Prop :=
  (∀ a ∈ l, a.target = a.entry * target.num / (target.den * originalSize)) ∧
  (∀ a ∈ l, ∀ nb, a.next = some nb → nb = a.entry * decayN / decayD) ∧
  List.Chain' (fun a b => a.next = some b.entry) l

/-- Loop invariant for the video bitrate schedule: the log so far
satisfies `AObs`, and the pending `current_bitrate` is the decay recorded
by the last rejected attempt (or the log is empty). -/
def AInv (target : NatFrac) (originalSize decayN decayD : ℕ)
    (s : VidState) : Prop :=
  AObs target originalSize decayN decayD s.attempts ∧
  (s.attempts = [] ∨
   ∃ a, s.attempts.getLast? = some a ∧ a.next = some s.bitrate)

/-! ## Helper lemmas: image loop -/

theorem imgMeasure_write (qStep : ℕ) (target : NatFrac) (s : ImgState)
    (tp : TPath) (f : Fmt) (rgb : Bool) (sz : ℕ) :
    imgMeasure qStep target (imgWrite s tp f rgb sz) tp =
      (if sizeLE sz target then
        ImgStep.committed f rgb sz { s with
          currentSize := sz, temp := none, lastTempVar := some tp,
          qualsUsed := s.qualsUsed ++ [s.quality] }
      else
        ImgStep.continue { s with
          currentSize := sz, temp := none,
          quality := max 5 (s.quality - qStep),
          iterations := s.iterations + 1, lastTempVar := some tp,
          qualsUsed := s.qualsUsed ++ [s.quality] }) := by
  unfold imgMeasure imgWrite tmpLookup
  simp

theorem imgMeasure_raise_of_none (qStep : ℕ) (target : NatFrac)
    (s : ImgState) (tp : TPath) (h : s.temp = none) :
    imgMeasure qStep target s tp = .raise s := by
  unfold imgMeasure tmpLookup
  rw [h]

theorem imgBody_continue (ext : ImgExt) (enc : ℕ → ℕ → ℕ)
    (pngFloor qStep : ℕ) (target : NatFrac) (s s' : ImgState)
    (ht : s.temp = none)
    (h : imgBody ext enc pngFloor qStep target s = .continue s') :
    s'.temp = none ∧ s'.qualsUsed = s.qualsUsed ++ [s.quality] ∧
    s'.quality = max 5 (s.quality - qStep) := by
  cases ext <;> simp only [imgBody] at h
  case png =>
    split at h
    · have hr := imgMeasure_raise_of_none qStep target
        { s with quality := 95, lastTempVar := some TPath.plain } .plain ht
      rw [hr] at h
      simp at h
    · rw [imgMeasure_write] at h
      split at h
      · simp at h
      · injection h with h
        subst h
        exact ⟨rfl, rfl, rfl⟩
  all_goals
    rw [imgMeasure_write] at h
    split at h
    · simp at h
    · injection h with h
      subst h
      exact ⟨rfl, rfl, rfl⟩

theorem imgBody_committed (ext : ImgExt) (enc : ℕ → ℕ → ℕ)
    (pngFloor qStep : ℕ) (target : NatFrac) (s s' : ImgState)
    (f : Fmt) (rgb : Bool) (sz : ℕ) (ht : s.temp = none)
    (h : imgBody ext enc pngFloor qStep target s = .committed f rgb sz s') :
    s'.temp = none ∧ s'.qualsUsed = s.qualsUsed ++ [s.quality] ∧
    sizeLE sz target ∧ s'.currentSize = sz ∧
    ((ext = .png ∨ ext = .other) → f = .jpegF ∧ rgb = true) := by
  cases ext <;> simp only [imgBody] at h
  case png =>
    split at h
    · have hr := imgMeasure_raise_of_none qStep target
        { s with quality := 95, lastTempVar := some TPath.plain } .plain ht
      rw [hr] at h
      simp at h
    · rw [imgMeasure_write] at h
      split at h
      case isTrue hle =>
        injection h with hf hrgb hsz h
        subst hf; subst hrgb; subst hsz; subst h
        exact ⟨rfl, rfl, hle, rfl, fun _ => ⟨rfl, rfl⟩⟩
      · simp at h
  case jpeg =>
    rw [imgMeasure_write] at h
    split at h
    case isTrue hle =>
      injection h with hf hrgb hsz h
      subst hf; subst hrgb; subst hsz; subst h
      exact ⟨rfl, rfl, hle, rfl, by simp⟩
    · simp at h
  case webp =>
    rw [imgMeasure_write] at h
    split at h
    case isTrue hle =>
      injection h with hf hrgb hsz h
      subst hf; subst hrgb; subst hsz; subst h
      exact ⟨rfl, rfl, hle, rfl, by simp⟩
    · simp at h
  case other =>
    rw [imgMeasure_write] at h
    split at h
    case isTrue hle =>
      injection h with hf hrgb hsz h
      subst hf; subst hrgb; subst hsz; subst h
      exact ⟨rfl, rfl, hle, rfl, fun _ => ⟨rfl, rfl⟩⟩
    · simp at h

theorem imgBody_raise (ext : ImgExt) (enc : ℕ → ℕ → ℕ)
    (pngFloor qStep : ℕ) (target : NatFrac) (s s' : ImgState)
    (ht : s.temp = none)
    (h : imgBody ext enc pngFloor qStep target s = .raise s') :
    s'.temp = none ∧ s'.qualsUsed = s.qualsUsed := by
  cases ext <;> simp only [imgBody] at h
  case png =>
    split at h
    · have hr := imgMeasure_raise_of_none qStep target
        { s with quality := 95, lastTempVar := some TPath.plain } .plain ht
      rw [hr] at h
      injection h with h
      subst h
      exact ⟨ht, rfl⟩
    · rw [imgMeasure_write] at h
      split at h <;> simp at h
  all_goals
    rw [imgMeasure_write] at h
    split at h <;> simp at h

theorem QInv_snoc (qStep : ℕ) (s : ImgState) (h : QInv qStep s) :
    QObs qStep (s.qualsUsed ++ [s.quality]) ∧
    (s.qualsUsed ++ [s.quality]).getLast? = some s.quality := by
  obtain ⟨⟨hmem, hchain, hhead⟩, hlink⟩ := h
  have hq5 : 5 ≤ s.quality := by
    rcases hlink with ⟨_, h95⟩ | ⟨x, _, hmax⟩
    · omega
    · rw [hmax]; exact le_max_left _ _
  refine ⟨⟨?_, ?_, ?_⟩, List.getLast?_concat _⟩
  · intro q hq
    rcases List.mem_append.1 hq with hq | hq
    · exact hmem q hq
    · rw [List.mem_singleton.1 hq]; exact hq5
  · refine List.Chain'.append hchain (List.chain'_singleton _) ?_
    intro x hx y hy
    have hy' : s.quality = y := by simpa using hy
    subst hy'
    rcases hlink with ⟨hnil, _⟩ | ⟨x', hx', hmax⟩
    · rw [hnil] at hx; simp at hx
    · rw [hx'] at hx
      have hxx : x' = x := by simpa using hx
      rw [← hxx]
      exact hmax
  · rcases hl : s.qualsUsed with _ | ⟨a, t⟩
    · rcases hlink with ⟨_, h95⟩ | ⟨x', hx', _⟩
      · right; simp [h95]
      · rw [hl] at hx'; simp at hx'
    · right
      rcases hhead with hh | hh
      · rw [hl] at hh; simp at hh
      · rw [hl] at hh
        simp only [List.head?_cons, Option.some.injEq] at hh
        simp [hh]

theorem imgLoop_inv (ext : ImgExt) (enc : ℕ → ℕ → ℕ) (pngFloor qStep : ℕ)
    (target : NatFrac) (maxIter : ℕ) :
    ∀ fuel s, s.temp = none → QInv qStep s →
      ((imgLoop ext enc pngFloor qStep target maxIter fuel s).state.temp = none ∧
       QObs qStep
         (imgLoop ext enc pngFloor qStep target maxIter fuel s).state.qualsUsed) ∧
      (∀ f rgb sz s',
        imgLoop ext enc pngFloor qStep target maxIter fuel s =
          .brokeSuccess f rgb sz s' →
        ((ext = .png ∨ ext = .other) → f = .jpegF ∧ rgb = true) ∧
        sizeLE sz target ∧ s'.currentSize = sz) := by
  intro fuel
  induction fuel with
  | zero =>
    intro s ht hq
    exact ⟨⟨ht, hq.1⟩, fun f rgb sz s' h => by simp [imgLoop] at h⟩
  | succ n ih =>
    intro s ht hq
    simp only [imgLoop]
    split
    · split
      case h_1 s' hb =>
        obtain ⟨ht', hquals, hqual⟩ :=
          imgBody_continue ext enc pngFloor qStep target s s' ht hb
        refine ih s' ht' ⟨?_, ?_⟩
        · rw [hquals]; exact (QInv_snoc qStep s hq).1
        · right
          refine ⟨s.quality, ?_, hqual⟩
          rw [hquals]; exact List.getLast?_concat _
      case h_2 f rgb sz s' hb =>
        obtain ⟨ht', hquals, hle, hcur, hfmt⟩ :=
          imgBody_committed ext enc pngFloor qStep target s s' f rgb sz ht hb
        constructor
        · constructor
          · exact ht'
          · show QObs qStep s'.qualsUsed
            rw [hquals]; exact (QInv_snoc qStep s hq).1
        · intro f' rgb' sz' s'' h
          injection h with h1 h2 h3 h4
          subst h1; subst h2; subst h3; subst h4
          exact ⟨hfmt, hle, hcur⟩
      case h_3 s' hb =>
        obtain ⟨ht', hquals⟩ :=
          imgBody_raise ext enc pngFloor qStep target s s' ht hb
        constructor
        · refine ⟨ht', ?_⟩
          show QObs qStep s'.qualsUsed
          rw [hquals]; exact hq.1
        · intro f rgb sz s'' h; simp at h
    · exact ⟨⟨ht, hq.1⟩, fun f rgb sz s' h => by simp at h⟩

theorem imgFinalStats_fields (byPercent : Bool) (o : ℕ) (os w : Bool)
    (t : Option (TPath × Fmt × Bool × ℕ)) (c : Option (Fmt × Bool × ℕ))
    (q : List ℕ) :
    (imgFinalStats byPercent o os w t c q).temp = t ∧
    (imgFinalStats byPercent o os w t c q).committed = c ∧
    (imgFinalStats byPercent o os w t c q).qualsUsed = q ∧
    (imgFinalStats byPercent o os w t c q).exit = 0 := by
  rcases c with _ | c <;> simp only [imgFinalStats] <;> split_ifs <;>
    exact ⟨rfl, rfl, rfl, rfl⟩

theorem imgPost_fields (byPercent : Bool) (o : ℕ) (target : NatFrac)
    (os : Bool) (s : ImgState) (c : Option (Fmt × Bool × ℕ))
    (ht : s.temp = none) :
    (imgPost byPercent o target os s c).temp = none ∧
    (imgPost byPercent o target os s c).committed = c ∧
    (imgPost byPercent o target os s c).qualsUsed = s.qualsUsed ∧
    (imgPost byPercent o target os s c).exit = 0 := by
  unfold imgPost
  split
  · split
    · exact ⟨ht, rfl, rfl, rfl⟩
    case h_2 tp =>
      split
      case h_1 c' hc =>
        rw [ht] at hc
        simp [tmpLookup] at hc
      case h_2 =>
        rw [ht]
        exact imgFinalStats_fields byPercent o os true none c s.qualsUsed
  · rw [ht]
    exact imgFinalStats_fields byPercent o os false none c s.qualsUsed

theorem imgFinish_fields (byPercent : Bool) (o : ℕ) (target : NatFrac)
    (os : Bool) (e : ImgLoopExit) (ht : e.state.temp = none) :
    (imgFinish byPercent o target os e).temp = none ∧
    (imgFinish byPercent o target os e).qualsUsed = e.state.qualsUsed ∧
    (imgFinish byPercent o target os e).exit = 0 ∧
    (imgFinish byPercent o target os e).committed = e.commitOf := by
  cases e with
  | raised s => exact ⟨ht, rfl, rfl, rfl⟩
  | brokeSuccess f rgb sz s =>
    have hf := imgPost_fields byPercent o target os s (some (f, rgb, sz)) ht
    exact ⟨hf.1, hf.2.2.1, hf.2.2.2, hf.2.1⟩
  | exhausted s =>
    have hf := imgPost_fields byPercent o target os s none ht
    exact ⟨hf.1, hf.2.2.1, hf.2.2.2, hf.2.1⟩

/-! ## Helper lemmas: video loop -/

theorem vidBody_continue (encOk : ℕ → ℕ → Bool) (encSize : ℕ → ℕ → ℕ)
    (target : NatFrac) (o dN dD : ℕ) (s s' : VidState)
    (h : vidBody encOk encSize target o dN dD s = .continue s') :
    s'.temp = false ∧ s'.bitrate = s.bitrate * dN / dD ∧
    s'.iterations = s.iterations + 1 ∧
    s'.attempts = s.attempts ++
      [⟨s.bitrate, s.bitrate * target.num / (target.den * o), true,
        encSize s.iterations (s.bitrate * target.num / (target.den * o)),
        some (s.bitrate * dN / dD)⟩] := by
  simp only [vidBody] at h
  split_ifs at h
  injection h with h
  subst h
  exact ⟨rfl, rfl, rfl, rfl⟩

theorem vidBody_committed (encOk : ℕ → ℕ → Bool) (encSize : ℕ → ℕ → ℕ)
    (target : NatFrac) (o dN dD : ℕ) (s s' : VidState) (sz : ℕ)
    (h : vidBody encOk encSize target o dN dD s = .committed sz s') :
    s'.temp = false ∧ s'.bitrate = s.bitrate ∧
    s'.iterations = s.iterations ∧ sizeLE sz target ∧
    s'.attempts = s.attempts ++
      [⟨s.bitrate, s.bitrate * target.num / (target.den * o), true, sz,
        none⟩] := by
  simp only [vidBody] at h
  split_ifs at h with h1 h2
  injection h with hsz h
  subst h
  refine ⟨rfl, rfl, rfl, ?_, ?_⟩
  · rw [← hsz]; exact h2
  · rw [← hsz]

theorem vidBody_encodeFail (encOk : ℕ → ℕ → Bool) (encSize : ℕ → ℕ → ℕ)
    (target : NatFrac) (o dN dD : ℕ) (s s' : VidState)
    (h : vidBody encOk encSize target o dN dD s = .encodeFail s') :
    s'.temp = false ∧ s'.bitrate = s.bitrate ∧
    s'.iterations = s.iterations ∧
    s'.attempts = s.attempts ++
      [⟨s.bitrate, s.bitrate * target.num / (target.den * o), false, 0,
        none⟩] := by
  simp only [vidBody] at h
  split_ifs at h
  injection h with h
  subst h
  exact ⟨rfl, rfl, rfl, rfl⟩

theorem AObs_snoc (target : NatFrac) (o dN dD : ℕ) (l : List VAtt)
    (b : ℕ) (hobs : AObs target o dN dD l)
    (hlink : l = [] ∨ ∃ a, l.getLast? = some a ∧ a.next = some b)
    (ok : Bool) (sz : ℕ) (nx : Option ℕ)
    (hx : ∀ nb, nx = some nb → nb = b * dN / dD) :
    AObs target o dN dD
      (l ++ [⟨b, b * target.num / (target.den * o), ok, sz, nx⟩]) := by
  obtain ⟨htgt, hnext, hchain⟩ := hobs
  refine ⟨?_, ?_, ?_⟩
  · intro a ha
    rcases List.mem_append.1 ha with ha | ha
    · exact htgt a ha
    · rw [List.mem_singleton.1 ha]
  · intro a ha nb hnb
    rcases List.mem_append.1 ha with ha | ha
    · exact hnext a ha nb hnb
    · rw [List.mem_singleton.1 ha] at hnb ⊢
      exact hx nb hnb
  · refine List.Chain'.append hchain (List.chain'_singleton _) ?_
    intro x hxx y hy
    have hy' : (⟨b, b * target.num / (target.den * o), ok, sz, nx⟩ : VAtt) = y := by
      simpa using hy
    rcases hlink with hnil | ⟨a, ha, hab⟩
    · rw [hnil] at hxx; simp at hxx
    · rw [ha] at hxx
      have hax : a = x := by simpa using hxx
      rw [← hy', ← hax]
      exact hab

theorem vidLoop_inv (encOk : ℕ → ℕ → Bool) (encSize : ℕ → ℕ → ℕ)
    (target : NatFrac) (o dN dD maxIter : ℕ) :
    ∀ fuel s, AInv target o dN dD s →
      AObs target o dN dD
        (vidLoop encOk encSize target o dN dD maxIter fuel s).state.attempts := by
  intro fuel
  induction fuel with
  | zero => intro s hq; exact hq.1
  | succ n ih =>
    intro s hq
    simp only [vidLoop]
    split
    · split
      case h_1 s' hb =>
        obtain ⟨_, hbit, _, hatt⟩ :=
          vidBody_continue encOk encSize target o dN dD s s' hb
        refine ih s' ⟨?_, ?_⟩
        · rw [hatt]
          exact AObs_snoc target o dN dD s.attempts s.bitrate hq.1 hq.2 _ _ _
            (fun nb hnb => by injection hnb with hnb; rw [← hnb])
        · right
          refine ⟨⟨s.bitrate, s.bitrate * target.num / (target.den * o), true,
            encSize s.iterations (s.bitrate * target.num / (target.den * o)),
            some (s.bitrate * dN / dD)⟩, ?_, ?_⟩
          · rw [hatt]; exact List.getLast?_concat _
          · rw [hbit]
      case h_2 sz s' hb =>
        obtain ⟨_, _, _, _, hatt⟩ :=
          vidBody_committed encOk encSize target o dN dD s s' sz hb
        show AObs target o dN dD s'.attempts
        rw [hatt]
        exact AObs_snoc target o dN dD s.attempts s.bitrate hq.1 hq.2 _ _ _
          (fun nb hnb => by simp at hnb)
      case h_3 s' hb =>
        obtain ⟨_, _, _, hatt⟩ :=
          vidBody_encodeFail encOk encSize target o dN dD s s' hb
        show AObs target o dN dD s'.attempts
        rw [hatt]
        exact AObs_snoc target o dN dD s.attempts s.bitrate hq.1 hq.2 _ _ _
          (fun nb hnb => by simp at hnb)
    · exact hq.1

theorem vidLoop_extends (encOk : ℕ → ℕ → Bool) (encSize : ℕ → ℕ → ℕ)
    (target : NatFrac) (o dN dD maxIter : ℕ) :
    ∀ fuel s, ∃ t,
      (vidLoop encOk encSize target o dN dD maxIter fuel s).state.attempts =
        s.attempts ++ t := by
  intro fuel
  induction fuel with
  | zero => intro s; exact ⟨[], by simp [vidLoop, VidLoopExit.state]⟩
  | succ n ih =>
    intro s
    simp only [vidLoop]
    split
    · split
      case h_1 s' hb =>
        obtain ⟨_, _, _, hatt⟩ :=
          vidBody_continue encOk encSize target o dN dD s s' hb
        obtain ⟨t, ht⟩ := ih s'
        refine ⟨[⟨s.bitrate, s.bitrate * target.num / (target.den * o), true,
          encSize s.iterations (s.bitrate * target.num / (target.den * o)),
          some (s.bitrate * dN / dD)⟩] ++ t, ?_⟩
        rw [ht, hatt, List.append_assoc]
      case h_2 sz s' hb =>
        obtain ⟨_, _, _, _, hatt⟩ :=
          vidBody_committed encOk encSize target o dN dD s s' sz hb
        exact ⟨_, hatt⟩
      case h_3 s' hb =>
        obtain ⟨_, _, _, hatt⟩ :=
          vidBody_encodeFail encOk encSize target o dN dD s s' hb
        exact ⟨_, hatt⟩
    · exact ⟨[], by simp [VidLoopExit.state]⟩

theorem vidLoop_temp (encOk : ℕ → ℕ → Bool) (encSize : ℕ → ℕ → ℕ)
    (target : NatFrac) (o dN dD maxIter : ℕ) :
    ∀ fuel s, s.temp = false →
      (vidLoop encOk encSize target o dN dD maxIter fuel s).state.temp =
        false := by
  intro fuel
  induction fuel with
  | zero => intro s h; exact h
  | succ n ih =>
    intro s h
    simp only [vidLoop]
    split
    · split
      case h_1 s' hb =>
        exact ih s' (vidBody_continue encOk encSize target o dN dD s s' hb).1
      case h_2 sz s' hb =>
        exact (vidBody_committed encOk encSize target o dN dD s s' sz hb).1
      case h_3 s' hb =>
        exact (vidBody_encodeFail encOk encSize target o dN dD s s' hb).1
    · exact h

theorem vidLoop_encodeFail (encOk : ℕ → ℕ → Bool) (encSize : ℕ → ℕ → ℕ)
    (target : NatFrac) (o dN dD maxIter : ℕ) :
    ∀ fuel s s', (∀ a ∈ s.attempts, a.ok = true) →
      vidLoop encOk encSize target o dN dD maxIter fuel s = .encodeFail s' →
      ∃ l a, s'.attempts = l ++ [a] ∧ a.ok = false ∧ a.next = none ∧
        a.entry = s'.bitrate ∧ ∀ b ∈ l, b.ok = true := by
  intro fuel
  induction fuel with
  | zero => intro s s' hok h; simp [vidLoop] at h
  | succ n ih =>
    intro s s' hok h
    simp only [vidLoop] at h
    split at h
    · split at h
      case h_1 s1 hb =>
        obtain ⟨_, _, _, hatt⟩ :=
          vidBody_continue encOk encSize target o dN dD s s1 hb
        refine ih s1 s' ?_ h
        intro a ha
        rw [hatt] at ha
        rcases List.mem_append.1 ha with ha | ha
        · exact hok a ha
        · rw [List.mem_singleton.1 ha]
      case h_2 sz s1 hb => simp at h
      case h_3 s1 hb =>
        obtain ⟨_, hbit, _, hatt⟩ :=
          vidBody_encodeFail encOk encSize target o dN dD s s1 hb
        injection h with h
        subst h
        refine ⟨s.attempts,
          ⟨s.bitrate, s.bitrate * target.num / (target.den * o), false, 0,
            none⟩, hatt, rfl, rfl, ?_, hok⟩
        rw [hbit]
    · simp at h

theorem vidLoop_head_entry (encOk : ℕ → ℕ → Bool) (encSize : ℕ → ℕ → ℕ)
    (target : NatFrac) (o dN dD maxIter fuel : ℕ) (s : VidState)
    (hfuel : 0 < fuel) (hit : s.iterations < maxIter)
    (hatt : s.attempts = []) :
    ∃ a t,
      (vidLoop encOk encSize target o dN dD maxIter fuel s).state.attempts =
        a :: t ∧ a.entry = s.bitrate := by
  obtain ⟨f, rfl⟩ : ∃ f, fuel = f + 1 := ⟨fuel - 1, by omega⟩
  simp only [vidLoop]
  rw [if_pos hit]
  rcases hb : vidBody encOk encSize target o dN dD s with s' | ⟨sz, s'⟩ | s'
  · obtain ⟨_, _, _, hatt'⟩ :=
      vidBody_continue encOk encSize target o dN dD s s' hb
    obtain ⟨t, ht⟩ := vidLoop_extends encOk encSize target o dN dD maxIter f s'
    refine ⟨⟨s.bitrate, s.bitrate * target.num / (target.den * o), true,
      encSize s.iterations (s.bitrate * target.num / (target.den * o)),
      some (s.bitrate * dN / dD)⟩, t, ?_, rfl⟩
    rw [ht, hatt', hatt]
    rfl
  · obtain ⟨_, _, _, _, hatt'⟩ :=
      vidBody_committed encOk encSize target o dN dD s s' sz hb
    refine ⟨⟨s.bitrate, s.bitrate * target.num / (target.den * o), true, sz,
      none⟩, [], ?_, rfl⟩
    show s'.attempts = _
    rw [hatt', hatt]
    rfl
  · obtain ⟨_, _, _, hatt'⟩ :=
      vidBody_encodeFail encOk encSize target o dN dD s s' hb
    refine ⟨⟨s.bitrate, s.bitrate * target.num / (target.den * o), false, 0,
      none⟩, [], ?_, rfl⟩
    show s'.attempts = _
    rw [hatt', hatt]
    rfl

theorem vidFinish_fields (m : ℕ) (e : VidLoopExit) :
    (vidFinish m e).attempts = e.state.attempts ∧ (vidFinish m e).exit = 0 ∧
    (e.state.temp = false → (vidFinish m e).temp = false) := by
  cases e <;> simp only [vidFinish, vidAfterCap] <;> split_ifs <;>
    refine ⟨rfl, rfl, fun h => ?_⟩ <;> first | exact h | rfl

theorem vidFinish_encodeFailed (m : ℕ) (e : VidLoopExit)
    (h : (vidFinish m e).outcome = .encodeFailed) :
    ∃ s, e = .encodeFail s ∧
      vidFinish m e = ⟨.encodeFailed, s.temp, none, s.attempts,
        s.bitrate, 0⟩ := by
  cases e with
  | success sz s =>
    exfalso
    simp only [vidFinish, vidAfterCap] at h
    split_ifs at h
  | encodeFail s =>
    refine ⟨s, rfl, ?_⟩
    simp only [vidFinish, vidAfterCap] at h ⊢
    split_ifs at h ⊢
    simp_all
  | exhausted s =>
    exfalso
    simp only [vidFinish, vidAfterCap] at h
    split_ifs at h

theorem QInv_init (qStep o : ℕ) : QInv qStep ⟨95, o, 0, none, none, []⟩ :=
  ⟨⟨by simp, by simp, Or.inl rfl⟩, Or.inl ⟨rfl, rfl⟩⟩

theorem AInv_init (target : NatFrac) (o dN dD b0 : ℕ) :
    AInv target o dN dD ⟨b0, 0, false, 0, false, []⟩ :=
  ⟨⟨by simp, by simp, List.chain'_nil⟩, Or.inl rfl⟩

/-- Every image by-percent invocation leaves no temp file, exits with
status 0, and its executed saves satisfy the quality-schedule facts. -/
theorem imageByPercent_fields (ext : ImgExt) (enc : ℕ → ℕ → ℕ)
    (o r : ℕ) (os : Bool) (m : ℕ) :
    (imageByPercent ext enc o r os m).temp = none ∧
    (imageByPercent ext enc o r os m).exit = 0 ∧
    QObs 10 (imageByPercent ext enc o r os m).qualsUsed := by
  have hinv := imgLoop_inv ext enc 50 10 ⟨o * (100 - r), 100⟩ m m
    ⟨95, o, 0, none, none, []⟩ rfl (QInv_init 10 o)
  have hfin := imgFinish_fields true o ⟨o * (100 - r), 100⟩ os
    (imgLoop ext enc 50 10 ⟨o * (100 - r), 100⟩ m m
      ⟨95, o, 0, none, none, []⟩) hinv.1.1
  simp only [imageByPercent]
  refine ⟨hfin.1, hfin.2.2.1, ?_⟩
  rw [hfin.2.1]
  exact hinv.1.2

/-- Every image to-size invocation leaves no temp file, exits with
status 0, and its executed saves satisfy the quality-schedule facts. -/
theorem imageToSize_fields (ext : ImgExt) (enc : ℕ → ℕ → ℕ)
    (o kb : ℕ) (os : Bool) (m : ℕ) :
    (imageToSize ext enc o kb os m).temp = none ∧
    (imageToSize ext enc o kb os m).exit = 0 ∧
    QObs 8 (imageToSize ext enc o kb os m).qualsUsed := by
  simp only [imageToSize]
  split
  · exact ⟨rfl, rfl, by simp, by simp, Or.inl rfl⟩
  · have hinv := imgLoop_inv ext enc 30 8 ⟨kb * 1024, 1⟩ m m
      ⟨95, o, 0, none, none, []⟩ rfl (QInv_init 8 o)
    have hfin := imgFinish_fields false o ⟨kb * 1024, 1⟩ os
      (imgLoop ext enc 30 8 ⟨kb * 1024, 1⟩ m m
        ⟨95, o, 0, none, none, []⟩) hinv.1.1
    refine ⟨hfin.1, hfin.2.2.1, ?_⟩
    rw [hfin.2.1]
    exact hinv.1.2

/-- Every video by-percent invocation either returns early (unreadable
source, failed probe, missing video stream, or duration-zero estimation
error) with an empty result, or runs the standard loop from some initial
bitrate. -/
theorem videoByPercent_shape (probe : Option VidProbe)
    (encOk : ℕ → ℕ → Bool) (encSize : ℕ → ℕ → ℕ) (o r m : ℕ) :
    (∃ out, out ≠ VidOutcome.encodeFailed ∧
      videoByPercent probe encOk encSize o r m = ⟨out, false, none, [], 0, 0⟩) ∨
    (∃ b0, videoByPercent probe encOk encSize o r m =
      vidFinish m (vidLoop encOk encSize ⟨o * (100 - r), 100⟩ o 4 5 m m
        ⟨b0, 0, false, 0, false, []⟩)) := by
  simp only [videoByPercent]
  split
  · exact Or.inl ⟨_, by simp, rfl⟩
  · split
    · exact Or.inl ⟨_, by simp, rfl⟩
    · split
      · split
        · exact Or.inl ⟨_, by simp, rfl⟩
        case h_2 b0 _ => exact Or.inr ⟨b0, rfl⟩
      · exact Or.inl ⟨_, by simp, rfl⟩

/-- Every video to-size invocation either returns early with an empty
result, or runs the standard loop from some initial bitrate. -/
theorem videoToSize_shape (probe : Option VidProbe)
    (encOk : ℕ → ℕ → Bool) (encSize : ℕ → ℕ → ℕ) (o mb m : ℕ) :
    (∃ out, out ≠ VidOutcome.encodeFailed ∧
      videoToSize probe encOk encSize o mb m = ⟨out, false, none, [], 0, 0⟩) ∨
    (∃ b0, videoToSize probe encOk encSize o mb m =
      vidFinish m (vidLoop encOk encSize ⟨mb * 1024 * 1024, 1⟩ o 3 4 m m
        ⟨b0, 0, false, 0, false, []⟩)) := by
  simp only [videoToSize]
  split
  · exact Or.inl ⟨_, by simp, rfl⟩
  · split
    · exact Or.inl ⟨_, by simp, rfl⟩
    · split
      · exact Or.inl ⟨_, by simp, rfl⟩
      · split
        · split
          · exact Or.inl ⟨_, by simp, rfl⟩
          case h_2 b0 _ => exact Or.inr ⟨b0, rfl⟩
        · exact Or.inl ⟨_, by simp, rfl⟩

/-- Every video by-percent invocation leaves no temp file, exits with
status 0, and its logged attempts satisfy the bitrate-schedule facts. -/
theorem videoByPercent_fields (probe : Option VidProbe)
    (encOk : ℕ → ℕ → Bool) (encSize : ℕ → ℕ → ℕ) (o r m : ℕ) :
    (videoByPercent probe encOk encSize o r m).temp = false ∧
    (videoByPercent probe encOk encSize o r m).exit = 0 ∧
    AObs ⟨o * (100 - r), 100⟩ o 4 5
      (videoByPercent probe encOk encSize o r m).attempts := by
  rcases videoByPercent_shape probe encOk encSize o r m with
    ⟨out, _, heq⟩ | ⟨b0, heq⟩ <;> rw [heq]
  · exact ⟨rfl, rfl, by simp, by simp, List.chain'_nil⟩
  · have hv := vidFinish_fields m (vidLoop encOk encSize
      ⟨o * (100 - r), 100⟩ o 4 5 m m ⟨b0, 0, false, 0, false, []⟩)
    have htmp := vidLoop_temp encOk encSize ⟨o * (100 - r), 100⟩ o 4 5 m m
      ⟨b0, 0, false, 0, false, []⟩ rfl
    have hobs := vidLoop_inv encOk encSize ⟨o * (100 - r), 100⟩ o 4 5 m m
      ⟨b0, 0, false, 0, false, []⟩ (AInv_init _ o 4 5 b0)
    refine ⟨hv.2.2 htmp, hv.2.1, ?_⟩
    rw [hv.1]
    exact hobs

/-- Every video to-size invocation leaves no temp file, exits with
status 0, and its logged attempts satisfy the bitrate-schedule facts. -/
theorem videoToSize_fields (probe : Option VidProbe)
    (encOk : ℕ → ℕ → Bool) (encSize : ℕ → ℕ → ℕ) (o mb m : ℕ) :
    (videoToSize probe encOk encSize o mb m).temp = false ∧
    (videoToSize probe encOk encSize o mb m).exit = 0 ∧
    AObs ⟨mb * 1024 * 1024, 1⟩ o 3 4
      (videoToSize probe encOk encSize o mb m).attempts := by
  rcases videoToSize_shape probe encOk encSize o mb m with
    ⟨out, _, heq⟩ | ⟨b0, heq⟩ <;> rw [heq]
  · exact ⟨rfl, rfl, by simp, by simp, List.chain'_nil⟩
  · have hv := vidFinish_fields m (vidLoop encOk encSize
      ⟨mb * 1024 * 1024, 1⟩ o 3 4 m m ⟨b0, 0, false, 0, false, []⟩)
    have htmp := vidLoop_temp encOk encSize ⟨mb * 1024 * 1024, 1⟩ o 3 4 m m
      ⟨b0, 0, false, 0, false, []⟩ rfl
    have hobs := vidLoop_inv encOk encSize ⟨mb * 1024 * 1024, 1⟩ o 3 4 m m
      ⟨b0, 0, false, 0, false, []⟩ (AInv_init _ o 3 4 b0)
    refine ⟨hv.2.2 htmp, hv.2.1, ?_⟩
    rw [hv.1]
    exact hobs

/-- Whatever an image by-percent run on a `.png` or unrecognized-extension
source commits to the destination is JPEG data converted to RGB. -/
theorem imageByPercent_committed_fmt (ext : ImgExt) (enc : ℕ → ℕ → ℕ)
    (o r : ℕ) (os : Bool) (m : ℕ) (hext : ext = .png ∨ ext = .other)
    (f : Fmt) (rgb : Bool) (sz : ℕ)
    (h : (imageByPercent ext enc o r os m).committed = some (f, rgb, sz)) :
    f = .jpegF ∧ rgb = true := by
  have hinv := imgLoop_inv ext enc 50 10 ⟨o * (100 - r), 100⟩ m m
    ⟨95, o, 0, none, none, []⟩ rfl (QInv_init 10 o)
  have hfin := imgFinish_fields true o ⟨o * (100 - r), 100⟩ os
    (imgLoop ext enc 50 10 ⟨o * (100 - r), 100⟩ m m
      ⟨95, o, 0, none, none, []⟩) hinv.1.1
  simp only [imageByPercent] at h
  rw [hfin.2.2.2] at h
  rcases he : imgLoop ext enc 50 10 ⟨o * (100 - r), 100⟩ m m
      ⟨95, o, 0, none, none, []⟩ with ⟨f', rgb', sz', s'⟩ | s' | s'
  · rw [he] at h
    simp only [ImgLoopExit.commitOf, Option.some.injEq, Prod.mk.injEq] at h
    obtain ⟨h1, h2, _⟩ := h
    rw [← h1, ← h2]
    exact (hinv.2 f' rgb' sz' s' he).1 hext
  · rw [he] at h; simp [ImgLoopExit.commitOf] at h
  · rw [he] at h; simp [ImgLoopExit.commitOf] at h

/-- Same as `imageByPercent_committed_fmt` for the to-size command. -/
theorem imageToSize_committed_fmt (ext : ImgExt) (enc : ℕ → ℕ → ℕ)
    (o kb : ℕ) (os : Bool) (m : ℕ) (hext : ext = .png ∨ ext = .other)
    (f : Fmt) (rgb : Bool) (sz : ℕ)
    (h : (imageToSize ext enc o kb os m).committed = some (f, rgb, sz)) :
    f = .jpegF ∧ rgb = true := by
  simp only [imageToSize] at h
  split at h
  · simp at h
  · have hinv := imgLoop_inv ext enc 30 8 ⟨kb * 1024, 1⟩ m m
      ⟨95, o, 0, none, none, []⟩ rfl (QInv_init 8 o)
    have hfin := imgFinish_fields false o ⟨kb * 1024, 1⟩ os
      (imgLoop ext enc 30 8 ⟨kb * 1024, 1⟩ m m
        ⟨95, o, 0, none, none, []⟩) hinv.1.1
    rw [hfin.2.2.2] at h
    rcases he : imgLoop ext enc 30 8 ⟨kb * 1024, 1⟩ m m
        ⟨95, o, 0, none, none, []⟩ with ⟨f', rgb', sz', s'⟩ | s' | s'
    · rw [he] at h
      simp only [ImgLoopExit.commitOf, Option.some.injEq, Prod.mk.injEq] at h
      obtain ⟨h1, h2, _⟩ := h
      rw [← h1, ← h2]
      exact (hinv.2 f' rgb' sz' s' he).1 hext
    · rw [he] at h; simp [ImgLoopExit.commitOf] at h
    · rw [he] at h; simp [ImgLoopExit.commitOf] at h

/-- A video loop run whose overall outcome is `encodeFailed` commits
nothing, its failed attempt is the last logged attempt (nothing follows
it), the failed attempt records no bitrate decay, and the pending bitrate
is still the failed attempt's entry bitrate. -/
theorem vidRun_encodeFailed_core (encOk : ℕ → ℕ → Bool)
    (encSize : ℕ → ℕ → ℕ) (target : NatFrac) (o dN dD m b0 : ℕ)
    (h : (vidFinish m (vidLoop encOk encSize target o dN dD m m
      ⟨b0, 0, false, 0, false, []⟩)).outcome = .encodeFailed) :
    (vidFinish m (vidLoop encOk encSize target o dN dD m m
      ⟨b0, 0, false, 0, false, []⟩)).committed = none ∧
    ∃ l a,
      (vidFinish m (vidLoop encOk encSize target o dN dD m m
        ⟨b0, 0, false, 0, false, []⟩)).attempts = l ++ [a] ∧
      a.ok = false ∧ a.next = none ∧
      a.entry = (vidFinish m (vidLoop encOk encSize target o dN dD m m
        ⟨b0, 0, false, 0, false, []⟩)).bitrate ∧
      ∀ b ∈ l, b.ok = true := by
  obtain ⟨s, he, hre⟩ := vidFinish_encodeFailed m _ h
  obtain ⟨l, a, h1, h2, h3, h4, h5⟩ := vidLoop_encodeFail encOk encSize
    target o dN dD m m ⟨b0, 0, false, 0, false, []⟩ s (by simp) he
  rw [hre]
  exact ⟨rfl, l, a, h1, h2, h3, h4, h5⟩

/-! ## Claim theorems -/

/-- Claim C1 (code bug evidence).  The claim (and the design in the spec)
requires that when the loop exhausts the iteration cap without any
candidate at or under target, the last produced candidate is preserved
and committed to the destination with a shortfall warning.  The code
instead deletes every rejected candidate with `os.remove` before the cap
check, so at exhaustion `os.path.exists(temp)` is false and no rename
happens: here a jpeg by-percent run (1000 bytes, 50 percent, cap 3, every
candidate 800 bytes) and a video by-percent run (cap 2) both end in the
warning path (`capWarn`) with the warning emitted but `committed = none`
and no temp file (the last candidate is gone, the destination untouched),
contradicting the claimed behavior. -/
theorem C1_cap_exhaustion_discards_last_candidate :
    imageByPercent .jpeg (fun _ _ => 800) 1000 50 true 3 =
      ⟨.capWarn, true, none, none, [95, 85, 75], 0⟩ ∧
    videoByPercent (some ⟨true, some 8000, some ⟨1, 1⟩⟩)
      (fun _ _ => true) (fun _ _ => 800) 1000 50 2 =
      ⟨.capWarn false, false, none,
        [⟨8000, 4000, true, 800, some 6400⟩,
         ⟨6400, 3200, true, 800, some 5120⟩], 5120, 0⟩ :=
  ⟨by decide, by decide⟩

/-- Claim C2 (code bug evidence).  The claim says that once the PNG
quality drops below the floor (50 for by-percent, 30 for to-size), the
iteration computes the scale factor, shrinks the dimensions, resets
quality to 95, and continues iterating, producing and measuring a new
candidate.  The code performs the resize and the reset but saves nothing
in that iteration, then probes `f"{file}.temp"` — a path no PNG iteration
ever wrote — so `os.path.getsize` raises and the whole command aborts
through the exception handler.  Here, with every candidate oversize, the
by-percent run reaches quality 45 after five saves (95, 85, 65, ...) and
the to-size run reaches quality 23 after nine saves, and both end in the
`errored` outcome with no further candidate produced. -/
theorem C2_png_quality_floor_raises_instead_of_iterating :
    imageByPercent .png (fun _ _ => 800) 1000 50 true 10 =
      ⟨.errored, false, none, none, [95, 85, 75, 65, 55], 0⟩ ∧
    imageToSize .png (fun _ _ => 999999) 100000 50 true 15 =
      ⟨.errored, false, none, none,
        [95, 87, 79, 71, 63, 55, 47, 39, 31], 0⟩ :=
  ⟨by decide, by decide⟩

/-- Claim C3, counterexample.  The claim says the quality value never
reaches or goes below the floor value 5 on any iteration.  A jpeg
by-percent run with ten failed iterations uses the qualities
95, 85, ..., 15, 5: the tenth save uses quality exactly 5 (the floor is
reached), refuting the claim as stated. -/
theorem C3_counterexample :
    (imageByPercent .jpeg (fun _ _ => 800) 1000 50 true 10).qualsUsed =
      [95, 85, 75, 65, 55, 45, 35, 25, 15, 5] ∧
    5 ∈ (imageByPercent .jpeg (fun _ _ => 800) 1000 50 true 10).qualsUsed :=
  ⟨by decide, by decide⟩

/-- Claim C3, amended.  In every image compression run the quality starts
at 95 (the first executed save uses quality 95), each failed iteration
sets the next quality to `max 5 (quality - step)` with step 10 for
percentage targets and step 8 for absolute-size targets (consecutive
executed saves are related exactly so), and the quality never goes
strictly below 5 — though it can reach exactly 5, which is the one point
where the original claim fails. -/
theorem C3_amended_quality_schedule (ext : ImgExt) (enc : ℕ → ℕ → ℕ)
    (o r kb : ℕ) (os osz : Bool) (m1 m2 : ℕ) :
    ((imageByPercent ext enc o r os m1).qualsUsed.head? = none ∨
      (imageByPercent ext enc o r os m1).qualsUsed.head? = some 95) ∧
    List.Chain' (fun a b => b = max 5 (a - 10))
      (imageByPercent ext enc o r os m1).qualsUsed ∧
    (∀ q ∈ (imageByPercent ext enc o r os m1).qualsUsed, 5 ≤ q) ∧
    ((imageToSize ext enc o kb osz m2).qualsUsed.head? = none ∨
      (imageToSize ext enc o kb osz m2).qualsUsed.head? = some 95) ∧
    List.Chain' (fun a b => b = max 5 (a - 8))
      (imageToSize ext enc o kb osz m2).qualsUsed ∧
    (∀ q ∈ (imageToSize ext enc o kb osz m2).qualsUsed, 5 ≤ q) := by
  obtain ⟨_, _, hm1, hc1, hh1⟩ := imageByPercent_fields ext enc o r os m1
  obtain ⟨_, _, hm2, hc2, hh2⟩ := imageToSize_fields ext enc o kb osz m2
  exact ⟨hh1, hc1, hm1, hh2, hc2, hm2⟩

/-- Witness for the amended C3 theorem at a concrete run. -/
theorem C3_amended_quality_schedule_witness :
    95 ∈ (imageByPercent .jpeg (fun _ _ => 800) 1000 50 true 3).qualsUsed ∧
    5 ≤ 95 :=
  ⟨by decide,
    (C3_amended_quality_schedule .jpeg (fun _ _ => 800) 1000 50 50 true true
      3 3).2.2.1 95 (by decide)⟩

/-- Claim C4 (confirmed).  When an `ffmpeg` invocation reports a non-zero
exit status, the video command aborts at once: nothing is committed to
the destination (so the original source artifact is untouched — the only
write the command ever performs on it is the commit rename), the failed
invocation is the last logged attempt (no further encode is attempted),
every earlier attempt had succeeded, the failed attempt records no
bitrate decay, and the pending bitrate still equals the failed attempt
entry bitrate (the scheduler is never advanced after the failure).
Stated for both video commands. -/
theorem C4_encode_failure_aborts (probe : Option VidProbe)
    (encOk : ℕ → ℕ → Bool) (encSize : ℕ → ℕ → ℕ) (o r mb m m2 : ℕ) :
    ((videoByPercent probe encOk encSize o r m).outcome = .encodeFailed →
      (videoByPercent probe encOk encSize o r m).committed = none ∧
      ∃ l a,
        (videoByPercent probe encOk encSize o r m).attempts = l ++ [a] ∧
        a.ok = false ∧ a.next = none ∧
        a.entry = (videoByPercent probe encOk encSize o r m).bitrate ∧
        ∀ b ∈ l, b.ok = true) ∧
    ((videoToSize probe encOk encSize o mb m2).outcome = .encodeFailed →
      (videoToSize probe encOk encSize o mb m2).committed = none ∧
      ∃ l a,
        (videoToSize probe encOk encSize o mb m2).attempts = l ++ [a] ∧
        a.ok = false ∧ a.next = none ∧
        a.entry = (videoToSize probe encOk encSize o mb m2).bitrate ∧
        ∀ b ∈ l, b.ok = true) := by
  constructor
  · intro h
    rcases videoByPercent_shape probe encOk encSize o r m with
      ⟨out, hne, heq⟩ | ⟨b0, heq⟩
    · rw [heq] at h
      exact absurd h hne
    · rw [heq] at h ⊢
      exact vidRun_encodeFailed_core encOk encSize ⟨o * (100 - r), 100⟩
        o 4 5 m b0 h
  · intro h
    rcases videoToSize_shape probe encOk encSize o mb m2 with
      ⟨out, hne, heq⟩ | ⟨b0, heq⟩
    · rw [heq] at h
      exact absurd h hne
    · rw [heq] at h ⊢
      exact vidRun_encodeFailed_core encOk encSize ⟨mb * 1024 * 1024, 1⟩
        o 3 4 m2 b0 h

/-- Witness for C4 at a concrete run whose first encode fails. -/
theorem C4_encode_failure_aborts_witness :
    (videoByPercent (some ⟨true, some 8000, some ⟨1, 1⟩⟩) (fun _ _ => false)
      (fun _ _ => 0) 1000 50 5).committed = none :=
  ((C4_encode_failure_aborts (some ⟨true, some 8000, some ⟨1, 1⟩⟩)
    (fun _ _ => false) (fun _ _ => 0) 1000 50 1 5 10).1 (by decide)).1

/-- Claim C5, counterexample.  The claim says the process exit status is
non-zero when the encoder invocation fails and when the source cannot be
measured.  In the code every such error only prints a message and returns
normally, which click maps to exit status 0: an encode-failure run and an
unreadable-source run both report exit status 0. -/
theorem C5_counterexample :
    (videoByPercent (some ⟨true, some 8000, some ⟨1, 1⟩⟩) (fun _ _ => false)
      (fun _ _ => 0) 1000 50 5) =
      ⟨.encodeFailed, false, none, [⟨8000, 4000, false, 0, none⟩],
        8000, 0⟩ ∧
    (videoByPercent none (fun _ _ => true) (fun _ _ => 0) 0 50 8) =
      ⟨.srcUnreadable, false, none, [], 0, 0⟩ :=
  ⟨by decide, by decide⟩

/-- Claim C5, amended.  The process exit status of every compress command
invocation is zero, in all cases: the command callbacks catch every
exception and report `SourceUnreadable` and `EncodeFailed` conditions as
error messages on stderr only, returning normally (only the argument
validation of the CLI framework, outside these callbacks, can produce a
non-zero exit). -/
theorem C5_amended_exit_always_zero (ext : ImgExt) (enc : ℕ → ℕ → ℕ)
    (probe : Option VidProbe) (encOk : ℕ → ℕ → Bool)
    (encSize : ℕ → ℕ → ℕ) (o r kb mb : ℕ) (os osz : Bool)
    (m1 m2 m3 m4 : ℕ) :
    (imageByPercent ext enc o r os m1).exit = 0 ∧
    (imageToSize ext enc o kb osz m2).exit = 0 ∧
    (videoByPercent probe encOk encSize o r m3).exit = 0 ∧
    (videoToSize probe encOk encSize o mb m4).exit = 0 :=
  ⟨(imageByPercent_fields ext enc o r os m1).2.1,
   (imageToSize_fields ext enc o kb osz m2).2.1,
   (videoByPercent_fields probe encOk encSize o r m3).2.1,
   (videoToSize_fields probe encOk encSize o mb m4).2.1⟩

/-- Claim C6, counterexample.  The claim says that when the metadata
analysis tool is unavailable the engine estimates the bitrate from size
and duration and proceeds with the compression loop.  When
`get_video_info` returns `None` (tool unavailable or failed), the code
instead prints an error and returns at once: no estimate is computed and
no encode attempt is made (the attempt log is empty). -/
theorem C6_counterexample :
    videoByPercent none (fun _ _ => true) (fun _ _ => 800) 1000 50 8 =
      ⟨.probeFailed, false, none, [], 0, 0⟩ :=
  by decide

/-- Claim C6, amended.  Only when the probe succeeds (and reports a video
stream) but its format data contains no bitrate (the `bit_rate` key is
absent or zero) does the engine estimate the original bitrate as
`int(originalSize * 8 / duration)` with the duration defaulting to 1 when
absent, and then proceed with the compression loop: the first logged
encode attempt enters with exactly that estimate.  When the tool is
unavailable the command aborts instead (see the counterexample). -/
theorem C6_amended_bitrate_estimate (p : VidProbe)
    (encOk : ℕ → ℕ → Bool) (encSize : ℕ → ℕ → ℕ) (o r m : ℕ)
    (ho : o ≠ 0) (hs : p.hasVideoStream = true)
    (hb : p.bit_rate.getD 0 = 0)
    (hd : (p.duration.getD ⟨1, 1⟩).num ≠ 0) (hm : 0 < m) :
    ∃ a t,
      (videoByPercent (some p) encOk encSize o r m).attempts = a :: t ∧
      a.entry = o * 8 * (p.duration.getD ⟨1, 1⟩).den /
        (p.duration.getD ⟨1, 1⟩).num := by
  have hib : initial_bitrate p o =
      some (o * 8 * (p.duration.getD ⟨1, 1⟩).den /
        (p.duration.getD ⟨1, 1⟩).num) := by
    simp only [initial_bitrate, hb, if_pos]
    rw [if_neg hd]
  simp only [videoByPercent, hib, hs, if_neg ho, if_true]
  obtain ⟨a, t, hat, hae⟩ := vidLoop_head_entry encOk encSize
    ⟨o * (100 - r), 100⟩ o 4 5 m m
    ⟨o * 8 * (p.duration.getD ⟨1, 1⟩).den / (p.duration.getD ⟨1, 1⟩).num,
      0, false, 0, false, []⟩ hm hm rfl
  refine ⟨a, t, ?_, hae⟩
  rw [(vidFinish_fields m _).1, hat]

/-- Witness for the amended C6 theorem: probe succeeds with no bitrate
and duration 10 on a 1000-byte source, so the first attempt enters with
the estimate 1000 * 8 / 10 = 800. -/
theorem C6_amended_bitrate_estimate_witness :
    (videoByPercent (some ⟨true, none, some ⟨10, 1⟩⟩) (fun _ _ => true)
      (fun _ _ => 800) 1000 50 8).attempts.head?.map VAtt.entry =
      some 800 := by
  obtain ⟨a, t, hat, hae⟩ := C6_amended_bitrate_estimate
    ⟨true, none, some ⟨10, 1⟩⟩ (fun _ _ => true) (fun _ _ => 800) 1000 50 8
    (by decide) (by decide) (by decide) (by decide) (by decide)
  rw [hat]
  simp only [List.head?_cons, Option.map_some']
  rw [hae]
  decide

/-- Claim C7 (confirmed).  Every logged encoder invocation of a video run
passes the bitrate `int(currentBitrate * (targetSize / originalSize))`
(with `targetSize = originalSize * (100 - reduction) / 100` for
by-percent and `targetSizeMB * 1024 * 1024` for to-size, computed here by
exact cross multiplication and floor division), and after each failed
(oversize) iteration the recorded next bitrate is
`int(currentBitrate * 0.8)` for by-percent and
`int(currentBitrate * 0.75)` for to-size (0.8 = 4/5 and 0.75 = 3/4
exactly); each recorded decay is the entry bitrate of the following
attempt, so the decay happens before the next ratio computation. -/
theorem C7_bitrate_schedule (probe : Option VidProbe)
    (encOk : ℕ → ℕ → Bool) (encSize : ℕ → ℕ → ℕ) (o r mb m m2 : ℕ) :
    (∀ a ∈ (videoByPercent probe encOk encSize o r m).attempts,
      a.target = a.entry * (o * (100 - r)) / (100 * o) ∧
      ∀ nb, a.next = some nb → nb = a.entry * 4 / 5) ∧
    List.Chain' (fun a b => a.next = some b.entry)
      (videoByPercent probe encOk encSize o r m).attempts ∧
    (∀ a ∈ (videoToSize probe encOk encSize o mb m2).attempts,
      a.target = a.entry * (mb * 1024 * 1024) / (1 * o) ∧
      ∀ nb, a.next = some nb → nb = a.entry * 3 / 4) ∧
    List.Chain' (fun a b => a.next = some b.entry)
      (videoToSize probe encOk encSize o mb m2).attempts := by
  obtain ⟨_, _, hp1, hp2, hp3⟩ := videoByPercent_fields probe encOk encSize o r m
  obtain ⟨_, _, hs1, hs2, hs3⟩ := videoToSize_fields probe encOk encSize o mb m2
  exact ⟨fun a ha => ⟨hp1 a ha, hp2 a ha⟩, hp3,
    fun a ha => ⟨hs1 a ha, hs2 a ha⟩, hs3⟩

/-- Witness for C7 at a concrete two-iteration run. -/
theorem C7_bitrate_schedule_witness :
    (⟨8000, 4000, true, 800, some 6400⟩ : VAtt).target =
      (⟨8000, 4000, true, 800, some 6400⟩ : VAtt).entry *
        (1000 * (100 - 50)) / (100 * 1000) :=
  ((C7_bitrate_schedule (some ⟨true, some 8000, some ⟨1, 1⟩⟩)
    (fun _ _ => true) (fun _ _ => 800) 1000 50 1 2 10).1
    ⟨8000, 4000, true, 800, some 6400⟩ (by decide)).1

/-- Claim C8, counterexample.  The claim says every to-size request whose
source size is at or under the resolved target returns with the
informational no-op message.  A video source measured at 0 bytes (0 is
also what the size probe returns for an unreadable file) is at or under
any target, yet the video command reports the unreadable-source error
instead of the no-op. -/
theorem C8_counterexample :
    (0 : ℕ) ≤ 1 * 1024 * 1024 ∧
    videoToSize none (fun _ _ => true) (fun _ _ => 0) 0 1 10 =
      ⟨.srcUnreadable, false, none, [], 0, 0⟩ ∧
    VidOutcome.srcUnreadable ≠ VidOutcome.noop :=
  ⟨by decide, by decide, by decide⟩

/-- Claim C8, amended.  Every image to-size request whose source size is
at or under `targetKB * 1024` returns immediately with the no-op outcome:
no save is executed, no temp file is created, nothing is committed (the
source artifact is untouched), and since the source is left unchanged the
invocation is idempotent.  The same holds for video to-size against
`targetMB * 1024 * 1024`, with the extra condition forced by the
counterexample that the measured size is nonzero (the code reports a
measured size of 0 as an unreadable source before the no-op check). -/
theorem C8_amended_noop_when_target_met (ext : ImgExt) (enc : ℕ → ℕ → ℕ)
    (probe : Option VidProbe) (encOk : ℕ → ℕ → Bool)
    (encSize : ℕ → ℕ → ℕ) (o kb mb : ℕ) (os : Bool) (m m2 : ℕ) :
    (o ≤ kb * 1024 →
      imageToSize ext enc o kb os m = ⟨.noop, false, none, none, [], 0⟩) ∧
    (0 < o → o ≤ mb * 1024 * 1024 →
      videoToSize probe encOk encSize o mb m2 =
        ⟨.noop, false, none, [], 0, 0⟩) := by
  constructor
  · intro h
    simp only [imageToSize]
    rw [if_pos h]
  · intro h1 h2
    simp only [videoToSize]
    rw [if_neg (by omega : ¬o = 0), if_pos h2]

/-- Witness for the amended C8 theorem at concrete already-small
sources. -/
theorem C8_amended_noop_when_target_met_witness :
    imageToSize .jpeg (fun _ _ => 0) 100 1 true 5 =
      ⟨.noop, false, none, none, [], 0⟩ ∧
    videoToSize none (fun _ _ => true) (fun _ _ => 0) 500 1 10 =
      ⟨.noop, false, none, [], 0, 0⟩ :=
  ⟨(C8_amended_noop_when_target_met .jpeg (fun _ _ => 0) none
      (fun _ _ => true) (fun _ _ => 0) 100 1 1 true 5 10).1 (by decide),
   (C8_amended_noop_when_target_met .jpeg (fun _ _ => 0) none
      (fun _ _ => true) (fun _ _ => 0) 500 1 1 true 5 10).2 (by decide)
      (by decide)⟩

/-- Claim C9 (confirmed).  After any compress command returns — in
particular in the success and cap-exhaustion outcomes — no temporary
candidate file remains on storage (the committed file, when any, resides
at the destination path, not at a temp path); and during the loop each
rejected candidate is deleted before the next one is generated: every
loop body that continues hands the next iteration a state with no temp
file. -/
theorem C9_no_temp_file_outlives_request (ext : ImgExt)
    (enc : ℕ → ℕ → ℕ) (probe : Option VidProbe) (encOk : ℕ → ℕ → Bool)
    (encSize : ℕ → ℕ → ℕ) (o r kb mb : ℕ) (os osz : Bool)
    (m1 m2 m3 m4 : ℕ) :
    (imageByPercent ext enc o r os m1).temp = none ∧
    (imageToSize ext enc o kb osz m2).temp = none ∧
    (videoByPercent probe encOk encSize o r m3).temp = false ∧
    (videoToSize probe encOk encSize o mb m4).temp = false ∧
    (∀ pngFloor qStep target s s', s.temp = none →
      imgBody ext enc pngFloor qStep target s = .continue s' →
      s'.temp = none) ∧
    (∀ target o2 dN dD s s',
      vidBody encOk encSize target o2 dN dD s = .continue s' →
      s'.temp = false) :=
  ⟨(imageByPercent_fields ext enc o r os m1).1,
   (imageToSize_fields ext enc o kb osz m2).1,
   (videoByPercent_fields probe encOk encSize o r m3).1,
   (videoToSize_fields probe encOk encSize o mb m4).1,
   fun pf qs tg s s' ht hb =>
     (imgBody_continue ext enc pf qs tg s s' ht hb).1,
   fun tg o2 dN dD s s' hb =>
     (vidBody_continue encOk encSize tg o2 dN dD s s' hb).1⟩

/-- Witness for C9: the loop body applied to a concrete rejected
candidate hands the next iteration a state with no temp file. -/
theorem C9_no_temp_file_outlives_request_witness :
    (⟨85, 800, 1, none, some TPath.plain, [95]⟩ : ImgState).temp = none :=
  (C9_no_temp_file_outlives_request .jpeg (fun _ _ => 800) none
    (fun _ _ => true) (fun _ _ => 0) 1000 50 50 1 true true 3 3 3
    3).2.2.2.2.1 50 10 ⟨500, 1⟩ ⟨95, 1000, 0, none, none, []⟩
    ⟨85, 800, 1, none, some TPath.plain, [95]⟩ rfl (by decide)

/-- Claim C10 (confirmed, implicit).  For a PNG source at or above the
quality floor and for any source whose extension is not jpeg, jpg or
webp, each executed save first converts the image to RGB and encodes it
as JPEG (at a temp path with the extension replaced by `.jpg`), and
whatever such a run commits is that JPEG candidate, renamed by
`os.rename` to `output or file` — a destination that keeps the original
file name and extension.  The committed output therefore contains
JPEG-encoded, RGB-converted data under the original extension (for
example a `.png` filename), a format change the spec never states at the
public interface. -/
theorem C10_jpeg_committed_under_original_extension (ext : ImgExt)
    (enc : ℕ → ℕ → ℕ) (o r kb : ℕ) (os osz : Bool) (m1 m2 : ℕ)
    (hext : ext = .png ∨ ext = .other) :
    (∀ pngFloor qStep target s f rgb sz s', s.temp = none →
      imgBody ext enc pngFloor qStep target s = .committed f rgb sz s' →
      f = .jpegF ∧ rgb = true) ∧
    (∀ f rgb sz,
      (imageByPercent ext enc o r os m1).committed = some (f, rgb, sz) →
      f = .jpegF ∧ rgb = true) ∧
    (∀ f rgb sz,
      (imageToSize ext enc o kb osz m2).committed = some (f, rgb, sz) →
      f = .jpegF ∧ rgb = true) :=
  ⟨fun pf qs tg s f rgb sz s' ht hb =>
     (imgBody_committed ext enc pf qs tg s s' f rgb sz ht hb).2.2.2.2 hext,
   fun f rgb sz h =>
     imageByPercent_committed_fmt ext enc o r os m1 hext f rgb sz h,
   fun f rgb sz h =>
     imageToSize_committed_fmt ext enc o kb osz m2 hext f rgb sz h⟩

/-- Witness for C10: a PNG by-percent run whose first candidate already
meets the target commits RGB-converted JPEG data of size 400. -/
theorem C10_jpeg_committed_under_original_extension_witness :
    (imageByPercent .png (fun _ _ => 400) 1000 50 true 10).committed =
      some (.jpegF, true, 400) ∧
    Fmt.jpegF = .jpegF ∧ (true : Bool) = true :=
  ⟨by decide,
   (C10_jpeg_committed_under_original_extension .png (fun _ _ => 400)
     1000 50 50 true true 10 10 (Or.inl rfl)).2.1 .jpegF true 400
     (by decide)⟩

end MTool
